import Mathlib

/-!
Verification of the status-persistence and retry/monitoring subsystem of the
stock-market-bot repository (`monitoring.py` and `utils.py`).

The Python code is shallowly embedded:

* `MonitorState` is the typed view of a monitoring document after
  `_apply_defaults` has run (all required keys present with well-typed
  values); `recordEventLocked`, `recordRun` and the `Op` fold embed
  `BotMonitor._record_event_locked` / `BotMonitor.record_run` /
  `BotMonitor.record_event`.  Timestamps (produced in Python by
  `datetime.now(timezone.utc).isoformat()`) are passed in explicitly as
  strings, which models the current-time side effect as an input.
* Python's list slice `events[-max_events:]` is embedded by `pyLastSlice`,
  including the `-0` quirk (`xs[-0:]` is the whole list).
* Python's dict (insertion-ordered, update-in-place) is embedded as an
  association list with `dictInsert` / `dictLookup`.
* JSON values are embedded by the inductive `Json`; reading the backing file
  (`_load_state`) takes a `FileRead` describing what the filesystem / parser
  produced (absent, OSError/JSONDecodeError — both caught by the same
  `except` clause — or a parsed value).
* `post_with_retry` from `utils.py` is embedded by `postWithRetry`: the
  wrapped action is a function from the 1-based attempt number to `Bool`
  (`true` = the call completed without raising), the backoff factor is a
  rational, and the result records the returned boolean, the number of
  attempts performed, and the list of sleep durations in order.
* `_save_state`'s temp-file-plus-rename protocol is embedded as a small
  step relation on a two-file filesystem (`FsState`, `SaveStep`), with
  `os.replace` as a single atomic step, which is the POSIX contract the
  code relies on.
-/

namespace StockBot

/-- A stored monitoring event, as built by `_record_event_locked`
(`monitoring.py` lines 88-94).  `metadata` is `none` when the Python code
omits the `"metadata"` key (the argument was `None` or an empty — falsy —
dict). -/
structure Event where
  timestamp : String
  type : String
  message : String
  metadata : Option (List (String × String))
deriving DecidableEq, Repr

/-- A run ledger entry, as built by `record_run` (`monitoring.py` lines
131-138).  `message` / `metadata` are `none` when the corresponding key is
omitted (argument `None` or falsy). -/
structure RunEntry where
  status : String
  timestamp : String
  message : Option String
  metadata : Option (List (String × String))
deriving DecidableEq, Repr

/-- The typed view of a monitoring document once `_apply_defaults` has
ensured every required key is present. -/
structure MonitorState where
  bot_name : String
  last_updated : Option String
  last_success : Option String
  last_failure : Option String
  success_count : Nat
  failure_count : Nat
  events : List Event
  runs : List (String × RunEntry)
deriving DecidableEq, Repr

/-- The fresh default document produced by `_apply_defaults({})`
(`monitoring.py` lines 59-69). -/
def freshDoc (name : String) : MonitorState :=
  { bot_name := name
    last_updated := none
    last_success := none
    last_failure := none
    success_count := 0
    failure_count := 0
    events := []
    runs := [] }

/-- Python's `xs[-m:]` for a non-negative `m`: the last `m` elements,
except that `xs[-0:]` is `xs[0:]`, i.e. the whole list. -/
def pyLastSlice (m : Nat) (xs : List α) : List α :=
  if m = 0 then xs else xs.drop (xs.length - m)

/-- Python truthiness filter used by `if metadata:` / `if message:`:
`none` stays `none`, and an empty (falsy) value also becomes `none`. -/
def pyTruthy (x : Option (List (String × String))) :
    Option (List (String × String)) :=
  match x with
  | none => none
  | some m => if m = [] then none else some m

/-- Python truthiness for the optional message string (`""` is falsy). -/
def pyTruthyStr (x : Option String) : Option String :=
  match x with
  | none => none
  | some s => if s = "" then none else some s

/-- Embeds `BotMonitor._record_event_locked` (`monitoring.py` lines 81-108):
append the event, trim to the last `maxEvents` entries when the list has
grown past `maxEvents`, stamp `last_updated`, and update the
success/failure timestamp and counter for types `"success"` / `"error"`. -/
def recordEventLocked (maxEvents : Nat) (ts ty msg : String)
    (meta : Option (List (String × String))) (s : MonitorState) :
    MonitorState :=
  let ev : Event := { timestamp := ts, type := ty, message := msg
                      metadata := pyTruthy meta }
  let evs := s.events ++ [ev]
  let evs := if evs.length > maxEvents then pyLastSlice maxEvents evs else evs
  let s := { s with events := evs, last_updated := some ts }
  if ty = "success" then
    { s with last_success := some ts, success_count := s.success_count + 1 }
  else if ty = "error" then
    { s with last_failure := some ts, failure_count := s.failure_count + 1 }
  else s

/-- Insertion into a Python dict modelled as an association list: replace
the value in place if the key is present (preserving insertion order),
otherwise append the new binding at the end. -/
def dictInsert (k : String) (v : β) : List (String × β) → List (String × β)
  | [] => [(k, v)]
  | (k₁, v₁) :: rest =>
      if k₁ = k then (k, v) :: rest else (k₁, v₁) :: dictInsert k v rest

/-- Lookup in a Python dict modelled as an association list. -/
def dictLookup (k : String) : List (String × β) → Option β
  | [] => none
  | (k₁, v₁) :: rest => if k₁ = k then some v₁ else dictLookup k rest

/-- The event type `record_run` derives from the run status
(`monitoring.py` lines 144-151). -/
def runEventType (status : String) : String :=
  if status = "success" then "success"
  else if status = "error" then "error"
  else if status = "warning" then "warning"
  else "info"

/-- Embeds `BotMonitor.record_run` (`monitoring.py` lines 122-160): upsert the run
entry under its label, then record one event whose type is derived from
`status`, using `message or default_message` (so a `None` or empty message
falls back to `"<label> run reported <status>"`). -/
def recordRun (maxEvents : Nat) (label status : String)
    (msg : Option String) (meta : Option (List (String × String)))
    (ts : String) (s : MonitorState) : MonitorState :=
  let entry : RunEntry := { status := status, timestamp := ts
                            message := pyTruthyStr msg
                            metadata := pyTruthy meta }
  let s := { s with runs := dictInsert label entry s.runs }
  let usedMsg := match pyTruthyStr msg with
    | some m => m
    | none => label ++ " run reported " ++ status
  recordEventLocked maxEvents ts (runEventType status) usedMsg meta s

/-- One recorder operation: a `record_event` call or a `record_run` call,
with the UTC timestamp the call would observe passed explicitly. -/
inductive Op
  | event (ts ty msg : String) (meta : Option (List (String × String)))
  | run (ts label status : String) (msg : Option String)
        (meta : Option (List (String × String)))
deriving DecidableEq, Repr

/-- Apply one recorder operation to the in-memory state. -/
def applyOp (maxEvents : Nat) (s : MonitorState) : Op → MonitorState
  | .event ts ty msg meta => recordEventLocked maxEvents ts ty msg meta s
  | .run ts label status msg meta =>
      recordRun maxEvents label status msg meta ts s

/-- Apply a sequence of recorder operations in call order. -/
def applyOps (maxEvents : Nat) (s : MonitorState) (ops : List Op) :
    MonitorState :=
  ops.foldl (applyOp maxEvents) s

/-- The type of the event a recorder operation records (for a run, the
type derived from its status). -/
def opType : Op → String
  | .event _ ty _ _ => ty
  | .run _ _ status _ _ => runEventType status

/-- The timestamp a recorder operation records. -/
def opTs : Op → String
  | .event ts _ _ _ => ts
  | .run ts _ _ _ _ => ts

/-- The stored event a recorder operation appends to `events`. -/
def opEvent : Op → Event
  | .event ts ty msg meta =>
      { timestamp := ts, type := ty, message := msg, metadata := pyTruthy meta }
  | .run ts label status msg meta =>
      { timestamp := ts, type := runEventType status
        message := match pyTruthyStr msg with
          | some m => m
          | none => label ++ " run reported " ++ status
        metadata := pyTruthy meta }

/-! ### Retry executor (`utils.py`, `post_with_retry`) -/

/-- The loop body of `post_with_retry` (`utils.py` lines 29-39).
`remaining` is the number of loop iterations left (`range(1, max_retries+1)`
from the current `attempt`), so the top-level call uses
`remaining = maxRetries`, `attempt = 1`.  Returns the boolean result, the
number of attempts performed, and the list of sleep durations executed, in
order.  A sleep of `bf ^ (attempt - 1)` happens only when the attempt
faulted and `attempt < maxRetries`. -/
def retryGo (a : Nat → Bool) (maxRetries : Nat) (bf : ℚ) :
    Nat → Nat → Bool × Nat × List ℚ
  | 0, _ => (false, 0, [])
  | remaining + 1, attempt =>
      if a attempt then (true, 1, [])
      else
        let rest := retryGo a maxRetries bf remaining (attempt + 1)
        (rest.1, rest.2.1 + 1,
          (if attempt < maxRetries then [bf ^ (attempt - 1)] else [])
            ++ rest.2.2)

/-- Embeds `post_with_retry(client, message, max_retries, backoff_factor)`
(`utils.py` lines 27-41).  The action `a` maps the 1-based attempt number
to `true` when `client.create_tweet` completes without raising on that
attempt.  Returns `(result, attemptsPerformed, sleeps)`. -/
def postWithRetry (a : Nat → Bool) (maxRetries : Nat) (bf : ℚ) :
    Bool × Nat × List ℚ :=
  retryGo a maxRetries bf maxRetries 1

/-! ### JSON documents and `_load_state` / `_apply_defaults` -/

/-- JSON values, as produced by `json.load`. -/
inductive Json
  | null
  | bool (b : Bool)
  | num (q : ℚ)
  | str (s : String)
  | arr (xs : List Json)
  | obj (fields : List (String × Json))

/-- Whether a JSON value is an object (`isinstance(data, dict)`). -/
def Json.isObj : Json → Bool
  | .obj _ => true
  | _ => false

/-- Lookup in a JSON object's field list (first binding wins, as in a
parsed Python dict, whose keys are unique). -/
def jLookup (k : String) : List (String × Json) → Option Json
  | [] => none
  | (k₁, v₁) :: rest => if k₁ = k then some v₁ else jLookup k rest

/-- The effect of `dict.setdefault(k, v)` on the document: leave the dict
unchanged when the key is present, otherwise append the binding (new keys
go to the end of a Python dict's insertion order). -/
def setdefault (k : String) (v : Json) (fields : List (String × Json)) :
    List (String × Json) :=
  match jLookup k fields with
  | some _ => fields
  | none => fields ++ [(k, v)]

/-- Embeds `BotMonitor._apply_defaults` (`monitoring.py` lines 59-69): ensure the
eight required keys exist, in this order. -/
def applyDefaults (botName : String) (fields : List (String × Json)) :
    List (String × Json) :=
  setdefault "runs" (.obj [])
    (setdefault "events" (.arr [])
      (setdefault "failure_count" (.num 0)
        (setdefault "success_count" (.num 0)
          (setdefault "last_failure" .null
            (setdefault "last_success" .null
              (setdefault "last_updated" .null
                (setdefault "bot_name" (.str botName) fields)))))))

/-- What reading and parsing the backing file produced.  `readError`
covers both `OSError` and `json.JSONDecodeError`, which the code catches
with one `except` clause. -/
inductive FileRead
  | absent
  | readError
  | parsed (j : Json)

/-- Embeds `BotMonitor._load_state` (`monitoring.py` lines 45-57): an absent
file, a read/parse error, or a parsed non-object all fall through to
`_apply_defaults({})`; a parsed object is repaired with
`_apply_defaults(data)`.  Total: no input makes it raise. -/
def loadState (botName : String) : FileRead → List (String × Json)
  | .parsed (.obj fields) => applyDefaults botName fields
  | .parsed _ => applyDefaults botName []
  | .absent => applyDefaults botName []
  | .readError => applyDefaults botName []

/-- The fresh default-initialized document, written out field by field:
bot name set, null timestamps, zero counters, empty events and runs. -/
def freshDefaults (botName : String) : List (String × Json) :=
  [("bot_name", .str botName), ("last_updated", .null),
   ("last_success", .null), ("last_failure", .null),
   ("success_count", .num 0), ("failure_count", .num 0),
   ("events", .arr []), ("runs", .obj [])]

/-- The required document keys, with their default values. -/
def requiredKeys : List (String × Json) := freshDefaults ""

/-! ### `load_all_statuses` (`monitoring.py` lines 169-184) -/

/-- What reading and parsing one file in the status directory produced
(`readError` covers `OSError` and `json.JSONDecodeError`). -/
inductive FileParse
  | readError
  | parsed (j : Json)

/-- Whether a filename matches the glob `*_status.json`: `*` matches any
(possibly empty) sequence of characters, so the pattern selects exactly
the names with suffix `_status.json`. -/
def matchesGlob (n : String) : Bool :=
  "_status.json".data.isSuffixOf n.data

/-- The files the glob `*_status.json` selects. -/
def matchingFiles (files : List (String × FileParse)) :
    List (String × FileParse) :=
  files.filter (fun f => matchesGlob f.1)

/-- Filename order on directory entries: Python's `sorted(...)` compares
the path strings code point by code point, i.e. lexicographically on
their character sequences. -/
def byName (f g : String × FileParse) : Prop := f.1.data ≤ g.1.data

instance : DecidableRel byName := fun f g =>
  inferInstanceAs (Decidable (f.1.data ≤ g.1.data))

instance : IsTotal (String × FileParse) byName :=
  ⟨fun f g => le_total f.1.data g.1.data⟩

instance : IsTrans (String × FileParse) byName :=
  ⟨fun _ _ _ h₁ h₂ => le_trans h₁ h₂⟩

/-- The matching files in filename-sorted order.  Python's `sorted` is a
stable sort by `≤` on the names; any stable sort by the same total
preorder yields the same list, so insertion sort is a faithful model. -/
def sortedFiles (files : List (String × FileParse)) :
    List (String × FileParse) :=
  (matchingFiles files).insertionSort byName

/-- The parse step of the scan loop: a file contributes its document when
it parsed as a JSON object, and is skipped (with a logged warning)
otherwise. -/
def parsedDoc : String × FileParse → Option Json
  | (_, .parsed (.obj fields)) => some (.obj fields)
  | _ => none

/-- Embeds `load_all_statuses(status_dir)`: `none` models a directory that does
not exist (or is not a directory), yielding `[]`; otherwise scan the
matching files in sorted order and keep the documents that parsed as JSON
objects. -/
def loadAllStatuses (dir : Option (List (String × FileParse))) :
    List Json :=
  match dir with
  | none => []
  | some files => (sortedFiles files).filterMap parsedDoc

/-! ### `_save_state` and atomic visibility (`monitoring.py` lines 71-79) -/

/-- The two files `_save_state` touches: the target `<bot>_status.json`
and the temporary `<bot>_status.tmp` (`status_file.with_suffix(".tmp")` in
the same directory).  Contents are the serialized document text. -/
structure FsState where
  target : Option String
  tmp : Option String
deriving DecidableEq, Repr

/-- One atomic filesystem step.  `writeTmp s` models the temp file holding
some partial or complete serialized text `s` (the `json.dump` into the
temp file handle, possibly mid-write); `rename w` models
`os.replace(tmp_path, status_file)`, atomic per its contract. -/
inductive SaveStep
  | writeTmp (s : String)
  | rename (w : String)
deriving DecidableEq, Repr

/-- Apply one step to the filesystem. -/
def applyStep (fs : FsState) : SaveStep → FsState
  | .writeTmp s => { fs with tmp := some s }
  | .rename w => { target := some w, tmp := none }

/-- Apply a sequence of steps. -/
def applySteps (fs : FsState) (steps : List SaveStep) : FsState :=
  steps.foldl applyStep fs

/-- The step sequence `_save_state` executes to persist the serialized
document `w`: a sequence of partial writes of prefixes of `w` into the
temp file, then the atomic rename.  `chunks` is the list of successive
write states (each a prefix of `w`, the last being `w` itself). -/
def saveScript (chunks : List String) (w : String) : List SaveStep :=
  chunks.map .writeTmp ++ [.rename w]

/-- What `_load_state` (or any reader) sees when it opens the target
path. -/
def readTarget (fs : FsState) : Option String := fs.target

/-! ## Theorems -/

/-- Splitting off the first sleep of a run of consecutive backoff
exponents, for an attempt number that is at least 1. -/
theorem range_map_pow_cons (bf : ℚ) (attempt n : Nat) (h : 1 ≤ attempt) :
    (List.range (n + 1)).map (fun i => bf ^ (attempt - 1 + i)) =
      bf ^ (attempt - 1) :: (List.range n).map (fun i => bf ^ (attempt + i)) := by
  rw [List.range_succ_eq_map, List.map_cons, List.map_map]
  refine congrArg₂ List.cons (by rw [Nat.add_zero]) ?_
  refine List.map_congr_left (fun i _ => ?_)
  simp only [Function.comp_apply]
  congr 1
  omega

/-- Exhaustion run of the retry loop: starting at `attempt` with
`remaining` iterations left, if every attempt up to `maxRetries` faults,
the loop returns `false` after performing all `remaining` attempts and
sleeping after each faulting attempt except the last. -/
theorem retryGo_fail (a : Nat → Bool) (maxRetries : Nat) (bf : ℚ) :
    ∀ remaining attempt, 1 ≤ attempt → attempt + remaining = maxRetries + 1 →
      (∀ k, attempt ≤ k → k ≤ maxRetries → a k = false) →
      retryGo a maxRetries bf remaining attempt =
        (false, remaining,
          (List.range (remaining - 1)).map (fun i => bf ^ (attempt - 1 + i))) := by
  intro remaining
  induction remaining with
  | zero => intro attempt h1 h2 hf; simp [retryGo]
  | succ r ih =>
    intro attempt h1 h2 hf
    have ha : a attempt = false := hf attempt le_rfl (by omega)
    have hrest := ih (attempt + 1) (by omega) (by omega)
      (fun k hk1 hk2 => hf k (by omega) hk2)
    simp only [retryGo, ha, Bool.false_eq_true, if_false, hrest]
    rcases Nat.eq_zero_or_pos r with hr | hr
    · subst hr
      have hnl : ¬ attempt < maxRetries := by omega
      simp [hnl]
    · have hlt : attempt < maxRetries := by omega
      simp only [hlt, if_true, Nat.add_sub_cancel, List.singleton_append,
        Prod.mk.injEq, true_and]
      have hr1 : r = (r - 1) + 1 := by omega
      rw [hr1, range_map_pow_cons bf attempt (r - 1) h1]
      simp [Nat.add_sub_cancel]

/-- First-success run of the retry loop: starting at `attempt`, if every
attempt before `j` faults and attempt `j ≤ maxRetries` completes without
fault, the loop returns `true` after attempt `j`, having slept after each
of the faulting attempts. -/
theorem retryGo_succ (a : Nat → Bool) (maxRetries : Nat) (bf : ℚ) :
    ∀ remaining attempt j, 1 ≤ attempt →
      attempt + remaining = maxRetries + 1 → attempt ≤ j → j ≤ maxRetries →
      (∀ k, attempt ≤ k → k < j → a k = false) → a j = true →
      retryGo a maxRetries bf remaining attempt =
        (true, j + 1 - attempt,
          (List.range (j - attempt)).map (fun i => bf ^ (attempt - 1 + i))) := by
  intro remaining
  induction remaining with
  | zero => intro attempt j h1 h2 hj1 hj2 hf hj; omega
  | succ r ih =>
    intro attempt j h1 h2 hj1 hj2 hf hj
    by_cases he : attempt = j
    · subst he
      have h11 : attempt + 1 - attempt = 1 := by omega
      simp [retryGo, hj, h11, Nat.sub_self]
    · have hlt : attempt < j := by omega
      have ha : a attempt = false := hf attempt le_rfl hlt
      have hrest := ih (attempt + 1) j (by omega) (by omega) (by omega) hj2
        (fun k hk1 hk2 => hf k (by omega) hk2) hj
      simp only [retryGo, ha, Bool.false_eq_true, if_false, hrest]
      have hltm : attempt < maxRetries := by omega
      simp only [hltm, if_true, List.singleton_append, Prod.mk.injEq, true_and]
      refine ⟨by omega, ?_⟩
      have hja : j - attempt = (j - attempt - 1) + 1 := by omega
      rw [hja, range_map_pow_cons bf attempt (j - attempt - 1) h1]
      have : j - (attempt + 1) = j - attempt - 1 := by omega
      rw [this]
      simp [Nat.add_sub_cancel]

/-- C3: `post_with_retry` returns `true` on the first of the
`maxRetries` attempts that completes without fault, performing exactly
that many attempts and no more, and returns `false` — a value, not a
raised fault (the embedding is a total function) — after performing all
`maxRetries` attempts when every attempt faults.  The action `a` maps the
1-based attempt number to whether that attempt completes without fault. -/
theorem C3_retry_result (a : Nat → Bool) (maxRetries : Nat) (bf : ℚ) :
    (∀ j, 1 ≤ j → j ≤ maxRetries → (∀ k, 1 ≤ k → k < j → a k = false) →
      a j = true →
      (postWithRetry a maxRetries bf).1 = true ∧
        (postWithRetry a maxRetries bf).2.1 = j) ∧
    ((∀ k, 1 ≤ k → k ≤ maxRetries → a k = false) →
      (postWithRetry a maxRetries bf).1 = false ∧
        (postWithRetry a maxRetries bf).2.1 = maxRetries) := by
  constructor
  · intro j h1 h2 hf hj
    have h := retryGo_succ a maxRetries bf maxRetries 1 j le_rfl (by omega)
      h1 h2 (fun k hk1 hk2 => hf k hk1 hk2) hj
    unfold postWithRetry
    rw [h]
    exact ⟨rfl, by simp⟩
  · intro hf
    have h := retryGo_fail a maxRetries bf maxRetries 1 le_rfl (by omega)
      (fun k hk1 hk2 => hf k hk1 hk2)
    unfold postWithRetry
    rw [h]
    exact ⟨rfl, rfl⟩

/-- Witness for C3: an action that faults on attempt 1 and completes on
attempt 2 yields `true` after exactly 2 attempts. -/
theorem C3_retry_result_witness :
    (postWithRetry (fun k => decide (2 ≤ k)) 3 2).1 = true ∧
      (postWithRetry (fun k => decide (2 ≤ k)) 3 2).2.1 = 2 :=
  (C3_retry_result (fun k => decide (2 ≤ k)) 3 2).1 2 (by decide) (by decide)
    (fun k hk1 hk2 => by
      have hk : k = 1 := by omega
      subst hk
      decide)
    (by decide)

/-- C4: the backoff sleeps of `post_with_retry`.  When the first
`j - 1 ≥ 0` attempts fault and attempt `j` completes, the sleeps are
exactly `bf^0, …, bf^(j-2)` — one per faulting attempt, none after the
successful attempt.  When all attempts fault, the sleeps are exactly
`bf^0, …, bf^(maxRetries-2)`: one after each faulting attempt `k` with
`k < maxRetries` and none after the final attempt, so `maxRetries - 1`
sleeps in total (2 sleeps for `maxRetries = 3`, with durations `bf^0` and
`bf^1`). -/
theorem C4_retry_sleeps (a : Nat → Bool) (maxRetries : Nat) (bf : ℚ) :
    (∀ j, 1 ≤ j → j ≤ maxRetries → (∀ k, 1 ≤ k → k < j → a k = false) →
      a j = true →
      (postWithRetry a maxRetries bf).2.2 =
          (List.range (j - 1)).map (fun i => bf ^ i) ∧
        (postWithRetry a maxRetries bf).2.2.length = j - 1) ∧
    ((∀ k, 1 ≤ k → k ≤ maxRetries → a k = false) →
      (postWithRetry a maxRetries bf).2.2 =
          (List.range (maxRetries - 1)).map (fun i => bf ^ i) ∧
        (postWithRetry a maxRetries bf).2.2.length = maxRetries - 1) := by
  constructor
  · intro j h1 h2 hf hj
    have h := retryGo_succ a maxRetries bf maxRetries 1 j le_rfl (by omega)
      h1 h2 (fun k hk1 hk2 => hf k hk1 hk2) hj
    unfold postWithRetry
    rw [h]
    simp
  · intro hf
    have h := retryGo_fail a maxRetries bf maxRetries 1 le_rfl (by omega)
      (fun k hk1 hk2 => hf k hk1 hk2)
    unfold postWithRetry
    rw [h]
    simp

/-- Witness for C4: an always-faulting action with `maxRetries = 3` and
backoff factor 2 sleeps exactly twice, for `2^0 = 1` and `2^1 = 2` time
units. -/
theorem C4_retry_sleeps_witness :
    (postWithRetry (fun _ => false) 3 2).2.2 = [1, 2] ∧
      (postWithRetry (fun _ => false) 3 2).2.2.length = 2 := by
  have h := (C4_retry_sleeps (fun _ => false) 3 2).2 (fun k hk1 hk2 => rfl)
  refine ⟨h.1.trans (by norm_num [List.range_succ]), ?_⟩
  rw [h.2]

/-- One recorder operation turns `events` into the appended list, trimmed
by the Python slice when it has grown past `maxEvents`. -/
theorem applyOp_events (m : Nat) (s : MonitorState) (op : Op) :
    (applyOp m s op).events =
      if (s.events ++ [opEvent op]).length > m
        then pyLastSlice m (s.events ++ [opEvent op])
        else s.events ++ [opEvent op] := by
  cases op <;>
    simp only [applyOp, recordRun, recordEventLocked, opEvent] <;>
    split_ifs <;> rfl

/-- One recorder operation bumps `success_count` exactly when its event
type is `"success"`. -/
theorem applyOp_success_count (m : Nat) (s : MonitorState) (op : Op) :
    (applyOp m s op).success_count =
      s.success_count + (if opType op = "success" then 1 else 0) := by
  cases op <;>
    simp only [applyOp, recordRun, recordEventLocked, opType] <;>
    split_ifs <;> simp_all

/-- One recorder operation bumps `failure_count` exactly when its event
type is `"error"`. -/
theorem applyOp_failure_count (m : Nat) (s : MonitorState) (op : Op) :
    (applyOp m s op).failure_count =
      s.failure_count + (if opType op = "error" then 1 else 0) := by
  cases op <;>
    simp only [applyOp, recordRun, recordEventLocked, opType] <;>
    split_ifs <;> simp_all

/-- One recorder operation sets `last_success` to its timestamp exactly
when its event type is `"success"`, and leaves it unchanged otherwise. -/
theorem applyOp_last_success (m : Nat) (s : MonitorState) (op : Op) :
    (applyOp m s op).last_success =
      if opType op = "success" then some (opTs op) else s.last_success := by
  cases op <;>
    simp only [applyOp, recordRun, recordEventLocked, opType, opTs] <;>
    split_ifs <;> simp_all

/-- One recorder operation sets `last_failure` to its timestamp exactly
when its event type is `"error"`, and leaves it unchanged otherwise. -/
theorem applyOp_last_failure (m : Nat) (s : MonitorState) (op : Op) :
    (applyOp m s op).last_failure =
      if opType op = "error" then some (opTs op) else s.last_failure := by
  cases op <;>
    simp only [applyOp, recordRun, recordEventLocked, opType, opTs] <;>
    split_ifs <;> simp_all

/-- Folding the counter step over a sequence of operations. -/
theorem applyOps_success_count (m : Nat) :
    ∀ (ops : List Op) (s : MonitorState),
      (applyOps m s ops).success_count =
        s.success_count + (ops.map opType).count "success"
  | [], s => by simp [applyOps]
  | op :: ops, s => by
    have ih := applyOps_success_count m ops (applyOp m s op)
    simp only [applyOps, List.foldl_cons] at ih ⊢
    rw [ih, applyOp_success_count, List.map_cons, List.count_cons]
    by_cases h : opType op = "success"
    · simp only [h, if_true, beq_self_eq_true, beq_iff_eq]
      omega
    · have hb : (opType op == "success") = false := by
        simp [h]
      simp [h, hb]
  termination_by ops => ops.length

/-- Folding the failure-counter step over a sequence of operations. -/
theorem applyOps_failure_count (m : Nat) :
    ∀ (ops : List Op) (s : MonitorState),
      (applyOps m s ops).failure_count =
        s.failure_count + (ops.map opType).count "error"
  | [], s => by simp [applyOps]
  | op :: ops, s => by
    have ih := applyOps_failure_count m ops (applyOp m s op)
    simp only [applyOps, List.foldl_cons] at ih ⊢
    rw [ih, applyOp_failure_count, List.map_cons, List.count_cons]
    by_cases h : opType op = "error"
    · simp only [h, if_true, beq_self_eq_true, beq_iff_eq]
      omega
    · have hb : (opType op == "error") = false := by
        simp [h]
      simp [h, hb]
  termination_by ops => ops.length

/-- C2: starting from the fresh default document, `success_count` equals
the number of recorded events (via `record_event` or `record_run`) whose
type is `"success"`, `failure_count` equals the number whose type is
`"error"`, and each single operation increments its counter by exactly 1
for its own type and leaves the other counter and other types alone. -/
theorem C2_counters (name : String) (m : Nat) (ops : List Op) :
    (applyOps m (freshDoc name) ops).success_count =
        (ops.map opType).count "success" ∧
      (applyOps m (freshDoc name) ops).failure_count =
        (ops.map opType).count "error" ∧
      (∀ (s : MonitorState) (op : Op),
        (applyOp m s op).success_count =
            s.success_count + (if opType op = "success" then 1 else 0) ∧
          (applyOp m s op).failure_count =
            s.failure_count + (if opType op = "error" then 1 else 0)) := by
  refine ⟨?_, ?_, fun s op =>
    ⟨applyOp_success_count m s op, applyOp_failure_count m s op⟩⟩
  · rw [applyOps_success_count m ops (freshDoc name)]
    simp [freshDoc]
  · rw [applyOps_failure_count m ops (freshDoc name)]
    simp [freshDoc]

/-- Folding the `last_success` step over a sequence of operations:
the result is the timestamp of the last operation of type `ty` in the
sequence, falling back to the starting value. -/
theorem applyOps_last_success (m : Nat) :
    ∀ (ops : List Op) (s : MonitorState),
      (applyOps m s ops).last_success =
        ops.foldl
          (fun acc op => if opType op = "success" then some (opTs op) else acc)
          s.last_success
  | [], s => by simp [applyOps]
  | op :: ops, s => by
    have ih := applyOps_last_success m ops (applyOp m s op)
    simp only [applyOps, List.foldl_cons] at ih ⊢
    rw [ih, applyOp_last_success]
  termination_by ops => ops.length

/-- Folding the `last_failure` step over a sequence of operations. -/
theorem applyOps_last_failure (m : Nat) :
    ∀ (ops : List Op) (s : MonitorState),
      (applyOps m s ops).last_failure =
        ops.foldl
          (fun acc op => if opType op = "error" then some (opTs op) else acc)
          s.last_failure
  | [], s => by simp [applyOps]
  | op :: ops, s => by
    have ih := applyOps_last_failure m ops (applyOp m s op)
    simp only [applyOps, List.foldl_cons] at ih ⊢
    rw [ih, applyOp_last_failure]
  termination_by ops => ops.length

/-- The "keep the latest matching timestamp" fold equals the last element
of the timestamps of the matching operations, falling back to the
accumulator when none matches. -/
theorem foldl_latest_eq_getLast (ty : String) (ops : List Op)
    (acc : Option String) :
    ops.foldl
        (fun acc op => if opType op = ty then some (opTs op) else acc) acc =
      (((ops.filter (fun op => opType op = ty)).map opTs).getLast?).or acc := by
  induction ops using List.reverseRecOn with
  | nil => simp
  | append_singleton ops op ih =>
    rw [List.foldl_append, List.foldl_cons, List.foldl_nil, List.filter_append]
    by_cases h : opType op = ty
    · simp [h, List.getLast?_concat]
    · simp only [h, if_false, List.filter_cons, decide_eq_true_eq]
      simp [h, ih]

/-- C6: after any sequence of recorder operations on a fresh document,
`last_success` is the timestamp of the most recently recorded event of
type `"success"` (the last element of the timestamps of the matching
operations), or `none` if there is none; `last_failure` likewise for type
`"error"`; and a single operation of any other type changes neither
field. -/
theorem C6_last_timestamps (name : String) (m : Nat) (ops : List Op) :
    (applyOps m (freshDoc name) ops).last_success =
        ((ops.filter (fun op => opType op = "success")).map opTs).getLast? ∧
      (applyOps m (freshDoc name) ops).last_failure =
        ((ops.filter (fun op => opType op = "error")).map opTs).getLast? ∧
      (∀ (s : MonitorState) (op : Op), opType op ≠ "success" →
        opType op ≠ "error" →
        (applyOp m s op).last_success = s.last_success ∧
          (applyOp m s op).last_failure = s.last_failure) := by
  refine ⟨?_, ?_, fun s op h1 h2 => ?_⟩
  · rw [applyOps_last_success m ops (freshDoc name),
      foldl_latest_eq_getLast "success" ops]
    simp [freshDoc]
  · rw [applyOps_last_failure m ops (freshDoc name),
      foldl_latest_eq_getLast "error" ops]
    simp [freshDoc]
  · rw [applyOp_last_success, applyOp_last_failure]
    simp [h1, h2]

/-- Witness for C6: a concrete mixed sequence — the success timestamp is
the one of the latest `"success"` event, the failure timestamp the one of
the latest `"error"` event, and a `"warning"` event touches neither. -/
theorem C6_last_timestamps_witness :
    (applyOps 50 (freshDoc "bot")
        [.event "t1" "success" "a" none, .event "t2" "error" "b" none,
         .event "t3" "success" "c" none, .event "t4" "warning" "d" none]
      ).last_success = some "t3" ∧
      (applyOps 50 (freshDoc "bot")
          [.event "t1" "success" "a" none, .event "t2" "error" "b" none,
           .event "t3" "success" "c" none, .event "t4" "warning" "d" none]
        ).last_failure = some "t2" ∧
      (applyOp 50 (freshDoc "bot") (.event "t9" "warning" "w" none)
        ).last_success = (freshDoc "bot").last_success := by
  have h := C6_last_timestamps "bot" 50
    [.event "t1" "success" "a" none, .event "t2" "error" "b" none,
     .event "t3" "success" "c" none, .event "t4" "warning" "d" none]
  exact ⟨h.1.trans (by decide), h.2.1.trans (by decide),
    (h.2.2 (freshDoc "bot") (.event "t9" "warning" "w" none)
      (by decide) (by decide)).1⟩

/-- The events list after a sequence of operations, starting from any
state whose events list is within the bound: for a positive bound `m`,
it is the last `m` elements (or all, if fewer) of the starting events
followed by the events of the operations in call order. -/
theorem applyOps_events_pos (m : Nat) (hm : 1 ≤ m) :
    ∀ (ops : List Op) (s : MonitorState), s.events.length ≤ m →
      (applyOps m s ops).events =
        (s.events ++ ops.map opEvent).drop
          ((s.events ++ ops.map opEvent).length - m)
  | [], s => by
    intro hs
    have h0 : s.events.length - m = 0 := by omega
    simp [applyOps, h0]
  | op :: ops, s => by
    intro hs
    have hstep := applyOp_events m s op
    simp only [applyOps, List.foldl_cons]
    by_cases hgrow : (s.events ++ [opEvent op]).length > m
    · have hlen : s.events.length = m := by
        simp only [List.length_append, List.length_cons, List.length_nil] at hgrow
        omega
      have hne : m ≠ 0 := by omega
      have hev : (applyOp m s op).events =
          (s.events ++ [opEvent op]).drop 1 := by
        rw [hstep, if_pos hgrow]
        simp only [pyLastSlice, hne, if_false]
        congr 1
        simp only [List.length_append, List.length_cons, List.length_nil, hlen]
        omega
      have hlen' : (applyOp m s op).events.length ≤ m := by
        rw [hev]
        simp only [List.length_drop, List.length_append, List.length_cons,
          List.length_nil]
        omega
      have ih := applyOps_events_pos m hm ops (applyOp m s op) hlen'
      simp only [applyOps] at ih
      rw [ih, hev]
      have h1 : (s.events ++ [opEvent op]).drop 1 ++ ops.map opEvent =
          ((s.events ++ [opEvent op]) ++ ops.map opEvent).drop 1 :=
        (List.drop_append_of_le_length (by simp)).symm
      rw [h1, List.drop_drop]
      have h2 : (s.events ++ [opEvent op]) ++ ops.map opEvent =
          s.events ++ (op :: ops).map opEvent := by
        simp [List.append_assoc]
      rw [h2]
      congr 1
      simp only [List.length_drop, List.length_append, List.length_cons,
        List.length_nil, List.map_cons, List.length_map, hlen]
      omega
    · have hev : (applyOp m s op).events = s.events ++ [opEvent op] := by
        rw [hstep, if_neg hgrow]
      have hlen' : (applyOp m s op).events.length ≤ m := by
        rw [hev]; omega
      have ih := applyOps_events_pos m hm ops (applyOp m s op) hlen'
      simp only [applyOps] at ih
      rw [ih, hev]
      simp [List.append_assoc]
  termination_by ops => ops.length

/-- C1 counterexample: the claim quantifies over every `max_events`
configuration, but with `max_events = 0` a single `record_event` call
(`N = 1 > 0 = max_events`) leaves one stored event, not zero: the Python
trim slice `events[-0:]` is the whole list, so no eviction happens. -/
theorem C1_counterexample :
    (1 : Nat) > 0 ∧
      (applyOps 0 (freshDoc "bot") [.event "t1" "info" "boot" none]
        ).events.length ≠ 0 := by
  constructor
  · decide
  · decide

/-- C1 (amended to `max_events ≥ 1`, the configuration the
`max_events = 0` counterexample excludes): for every sequence of
`N > max_events` recorder calls on a fresh document, the resulting events
list has length exactly `max_events` and is exactly the last `max_events`
recorded events in call order; moreover any single mutation keeps the
events length at most `max_events`. -/
theorem C1_bounded_history (name : String) (m : Nat) (ops : List Op)
    (hm : 1 ≤ m) (hN : m < ops.length) :
    (applyOps m (freshDoc name) ops).events.length = m ∧
      (applyOps m (freshDoc name) ops).events =
        (ops.map opEvent).drop (ops.length - m) ∧
      (∀ (s : MonitorState) (op : Op), s.events.length ≤ m →
        (applyOp m s op).events.length ≤ m) := by
  have h := applyOps_events_pos m hm ops (freshDoc name) (by simp [freshDoc])
  have hfresh : (freshDoc name).events = ([] : List Event) := rfl
  rw [hfresh, List.nil_append] at h
  refine ⟨?_, by rw [h]; simp, fun s op hs => ?_⟩
  · rw [h]
    simp only [List.length_drop, List.length_map]
    omega
  · rw [applyOp_events]
    split_ifs with hgrow
    · simp only [pyLastSlice]
      have hne : m ≠ 0 := by omega
      simp only [hne, if_false, List.length_drop]
      omega
    · simp only [List.length_append, List.length_cons, List.length_nil] at hgrow ⊢
      omega

/-- Witness for C1: with `max_events = 2` and 3 recorded events, the
document keeps exactly the last 2 events in call order. -/
theorem C1_bounded_history_witness :
    (applyOps 2 (freshDoc "bot")
        [.event "t1" "info" "a" none, .event "t2" "info" "b" none,
         .event "t3" "info" "c" none]).events.length = 2 ∧
      (applyOps 2 (freshDoc "bot")
          [.event "t1" "info" "a" none, .event "t2" "info" "b" none,
           .event "t3" "info" "c" none]).events =
        ([Op.event "t1" "info" "a" none, Op.event "t2" "info" "b" none,
          Op.event "t3" "info" "c" none].map opEvent).drop 1 := by
  have h := C1_bounded_history "bot" 2
    [.event "t1" "info" "a" none, .event "t2" "info" "b" none,
     .event "t3" "info" "c" none] (by decide) (by decide)
  exact ⟨h.1, h.2.1⟩

/-- With `max_events = 0` no eviction ever happens: the trim slice
`events[-0:]` is the whole list. -/
theorem applyOps_events_zero :
    ∀ (ops : List Op) (s : MonitorState),
      (applyOps 0 s ops).events = s.events ++ ops.map opEvent
  | [], s => by simp [applyOps]
  | op :: ops, s => by
    have hstep := applyOp_events 0 s op
    have hev : (applyOp 0 s op).events = s.events ++ [opEvent op] := by
      rw [hstep]
      split_ifs <;> simp [pyLastSlice]
    have ih := applyOps_events_zero ops (applyOp 0 s op)
    simp only [applyOps, List.foldl_cons] at ih ⊢
    rw [ih, hev]
    simp [List.append_assoc]
  termination_by ops => ops.length

/-- C10: with `max_events = 0` the trimming slice `events[-0:]` yields
the whole list, so `record_event` never evicts: after any `N` recorder
calls on a fresh document the events list holds all `N` recorded events
— the length bound is only enforced for `max_events ≥ 1`. -/
theorem C10_zero_max_events (name : String) (ops : List Op) :
    (applyOps 0 (freshDoc name) ops).events = ops.map opEvent ∧
      (applyOps 0 (freshDoc name) ops).events.length = ops.length := by
  have h := applyOps_events_zero ops (freshDoc name)
  have hfresh : (freshDoc name).events = ([] : List Event) := rfl
  rw [hfresh, List.nil_append] at h
  exact ⟨h, by rw [h]; simp⟩

/-- Unfolding `dictInsert` on a matching head binding. -/
theorem dictInsert_cons_eq (k : String) (v : β) (k₁ : String) (v₁ : β)
    (rest : List (String × β)) (h : k₁ = k) :
    dictInsert k v ((k₁, v₁) :: rest) = (k, v) :: rest := by
  simp [dictInsert, h]

/-- Unfolding `dictInsert` on a non-matching head binding. -/
theorem dictInsert_cons_ne (k : String) (v : β) (k₁ : String) (v₁ : β)
    (rest : List (String × β)) (h : ¬ k₁ = k) :
    dictInsert k v ((k₁, v₁) :: rest) = (k₁, v₁) :: dictInsert k v rest := by
  simp [dictInsert, h]

/-- Upserting a key makes lookup of that key return the new value. -/
theorem dictInsert_lookup_self (k : String) (v : β) :
    ∀ d : List (String × β), dictLookup k (dictInsert k v d) = some v
  | [] => by simp [dictInsert, dictLookup]
  | (k₁, v₁) :: rest => by
    by_cases h : k₁ = k
    · rw [dictInsert_cons_eq k v k₁ v₁ rest h]
      simp [dictLookup]
    · rw [dictInsert_cons_ne k v k₁ v₁ rest h]
      simp only [dictLookup, h, if_false]
      exact dictInsert_lookup_self k v rest

/-- Upserting a key leaves lookups of other keys unchanged. -/
theorem dictInsert_lookup_other (k l : String) (v : β) (hne : l ≠ k) :
    ∀ d : List (String × β), dictLookup l (dictInsert k v d) = dictLookup l d
  | [] => by
    have hkl : ¬ k = l := fun h => hne h.symm
    simp [dictInsert, dictLookup, hkl]
  | (k₁, v₁) :: rest => by
    have hkl : ¬ k = l := fun h => hne h.symm
    by_cases h : k₁ = k
    · rw [dictInsert_cons_eq k v k₁ v₁ rest h]
      simp only [dictLookup, hkl, if_false]
      rw [if_neg (h ▸ hkl)]
    · rw [dictInsert_cons_ne k v k₁ v₁ rest h]
      by_cases h2 : k₁ = l
      · simp [dictLookup, h2]
      · simp only [dictLookup, h2, if_false]
        exact dictInsert_lookup_other k l v hne rest

/-- A key is among the keys of an upserted dict iff it is the upserted
key or was already present. -/
theorem dictInsert_mem_keys (k x : String) (v : β) :
    ∀ d : List (String × β),
      x ∈ (dictInsert k v d).map Prod.fst ↔ x = k ∨ x ∈ d.map Prod.fst
  | [] => by simp [dictInsert]
  | (k₁, v₁) :: rest => by
    by_cases h : k₁ = k
    · rw [dictInsert_cons_eq k v k₁ v₁ rest h]
      subst h
      simp only [List.map_cons, List.mem_cons]
      tauto
    · rw [dictInsert_cons_ne k v k₁ v₁ rest h]
      simp only [List.map_cons, List.mem_cons, dictInsert_mem_keys k x v rest]
      tauto

/-- Upserting preserves distinctness of the keys. -/
theorem dictInsert_keys_nodup (k : String) (v : β) :
    ∀ d : List (String × β), (d.map Prod.fst).Nodup →
      ((dictInsert k v d).map Prod.fst).Nodup
  | [], _ => by simp [dictInsert]
  | (k₁, v₁) :: rest, hnd => by
    simp only [List.map_cons, List.nodup_cons] at hnd
    by_cases h : k₁ = k
    · rw [dictInsert_cons_eq k v k₁ v₁ rest h]
      subst h
      simp only [List.map_cons, List.nodup_cons]
      exact hnd
    · rw [dictInsert_cons_ne k v k₁ v₁ rest h]
      simp only [List.map_cons, List.nodup_cons]
      refine ⟨?_, dictInsert_keys_nodup k v rest hnd.2⟩
      intro hmem
      rcases (dictInsert_mem_keys k k₁ v rest).mp hmem with h1 | h1
      · exact h h1
      · exact hnd.1 h1

/-- In a dict with distinct keys, a present key occurs exactly once. -/
theorem count_keys_eq_one (x : String) (d : List (String × β))
    (hnd : (d.map Prod.fst).Nodup) (hmem : x ∈ d.map Prod.fst) :
    (d.map Prod.fst).count x = 1 :=
  le_antisymm (List.nodup_iff_count_le_one.mp hnd x)
    (List.count_pos_iff.mpr hmem)

/-- A successful lookup means the key is present. -/
theorem dictLookup_isSome_mem (x : String) :
    ∀ d : List (String × β), dictLookup x d ≠ none → x ∈ d.map Prod.fst
  | [] => by simp [dictLookup]
  | (k₁, v₁) :: rest => by
    by_cases h : k₁ = x
    · subst h
      simp
    · simp only [dictLookup, h, if_false, List.map_cons, List.mem_cons]
      intro hx
      exact Or.inr (dictLookup_isSome_mem x rest hx)

/-- C5 (amended: the events list grows by one entry per `record_run`
call while its length is below `max_events`; at capacity the oldest
entry is evicted instead, per the C5 counterexample): `record_run`
stores a run entry carrying the status and the call's UTC timestamp
under `runs[label]`, replacing any prior entry for that label so that
the label occurs exactly once among the (still distinct) keys while
other labels' entries are untouched, and appends exactly one event whose
type is derived from the status (`"success" → "success"`,
`"error" → "error"`, `"warning" → "warning"`, anything else — including
`"skipped"` — `→ "info"`), with the default message
`"<label> run reported <status>"` when no message is supplied. -/
theorem C5_record_run (m : Nat) (label status : String) (msg : Option String)
    (meta : Option (List (String × String))) (ts : String) (s : MonitorState)
    (hkeys : (s.runs.map Prod.fst).Nodup) (hlen : s.events.length < m) :
    (∃ e : RunEntry,
        dictLookup label (recordRun m label status msg meta ts s).runs =
            some e ∧
          e.status = status ∧ e.timestamp = ts) ∧
      (∀ l, l ≠ label →
        dictLookup l (recordRun m label status msg meta ts s).runs =
          dictLookup l s.runs) ∧
      ((recordRun m label status msg meta ts s).runs.map Prod.fst).Nodup ∧
      ((recordRun m label status msg meta ts s).runs.map Prod.fst).count
          label = 1 ∧
      (∃ ev : Event,
        (recordRun m label status msg meta ts s).events = s.events ++ [ev] ∧
          ev.timestamp = ts ∧
          (status = "success" → ev.type = "success") ∧
          (status = "error" → ev.type = "error") ∧
          (status = "warning" → ev.type = "warning") ∧
          (status ≠ "success" → status ≠ "error" → status ≠ "warning" →
            ev.type = "info") ∧
          (msg = none → ev.message = label ++ " run reported " ++ status)) := by
  have hruns : (recordRun m label status msg meta ts s).runs =
      dictInsert label
        { status := status, timestamp := ts, message := pyTruthyStr msg
          metadata := pyTruthy meta } s.runs := by
    simp only [recordRun, recordEventLocked]
    split_ifs <;> rfl
  have hnd' := dictInsert_keys_nodup label
    ({ status := status, timestamp := ts, message := pyTruthyStr msg
       metadata := pyTruthy meta } : RunEntry) s.runs hkeys
  have hevents : (recordRun m label status msg meta ts s).events =
      s.events ++ [opEvent (.run ts label status msg meta)] := by
    have h := applyOp_events m s (.run ts label status msg meta)
    simp only [applyOp] at h
    rw [h, if_neg]
    simp only [List.length_append, List.length_cons, List.length_nil]
    omega
  refine ⟨⟨_, by rw [hruns]; exact dictInsert_lookup_self label _ s.runs,
      rfl, rfl⟩,
    fun l hl => by rw [hruns]; exact dictInsert_lookup_other label l _ hl s.runs,
    by rw [hruns]; exact hnd',
    ?_, ?_⟩
  · rw [hruns]
    refine count_keys_eq_one label _ hnd' ?_
    refine dictLookup_isSome_mem label _ ?_
    rw [dictInsert_lookup_self label _ s.runs]
    simp
  · refine ⟨opEvent (.run ts label status msg meta), hevents, rfl,
      ?_, ?_, ?_, ?_, ?_⟩
    · intro h; simp [opEvent, runEventType, h]
    · intro h; simp [opEvent, runEventType, h]
    · intro h; simp [opEvent, runEventType, h]
    · intro h1 h2 h3; simp [opEvent, runEventType, h1, h2, h3]
    · intro h; simp [opEvent, pyTruthyStr, h]

/-- C5 counterexample: the events list does not grow by one entry per
`record_run` call unconditionally — at capacity (`max_events = 1`,
already one stored event) a second `record_run` call leaves the length
at 1, not 2, because the oldest event is evicted. -/
theorem C5_counterexample :
    (applyOps 1 (freshDoc "bot")
        [.run "t1" "morning" "success" none none,
         .run "t2" "morning" "success" none none]).events.length = 1 ∧
      (applyOps 1 (freshDoc "bot")
          [.run "t1" "morning" "success" none none,
           .run "t2" "morning" "success" none none]).events.length ≠ 2 := by
  constructor
  · decide
  · decide

/-- Witness for C5: a `record_run("morning", "skipped")` call with no
message on a fresh document stores the run entry under `"morning"` and
appends one `"info"` event with the default message. -/
theorem C5_record_run_witness :
    (∃ e : RunEntry,
        dictLookup "morning"
            (recordRun 50 "morning" "skipped" none none "t1"
              (freshDoc "bot")).runs = some e ∧
          e.status = "skipped" ∧ e.timestamp = "t1") ∧
      (∃ ev : Event,
        (recordRun 50 "morning" "skipped" none none "t1"
            (freshDoc "bot")).events = (freshDoc "bot").events ++ [ev] ∧
          ev.timestamp = "t1" ∧
          ev.type = "info" ∧
          ev.message = "morning run reported skipped") := by
  have h := C5_record_run 50 "morning" "skipped" none none "t1"
    (freshDoc "bot") (by simp [freshDoc]) (by simp [freshDoc])
  refine ⟨h.1, ?_⟩
  obtain ⟨ev, h1, h2, _, _, _, h6, h7⟩ := h.2.2.2.2
  exact ⟨ev, h1, h2, h6 (by decide) (by decide) (by decide), h7 rfl⟩

/-- Lookup distributes over the append a `setdefault` may perform. -/
theorem jLookup_append (x : String) :
    ∀ d₁ d₂ : List (String × Json),
      jLookup x (d₁ ++ d₂) = (jLookup x d₁).or (jLookup x d₂)
  | [], d₂ => by simp [jLookup]
  | (k₁, v₁) :: rest, d₂ => by
    by_cases h : k₁ = x
    · simp [jLookup, h]
    · simp only [List.cons_append, jLookup, h, if_false]
      exact jLookup_append x rest d₂

/-- What `setdefault` makes a later lookup return: the original binding
if the key was present, else the default for the key that was set. -/
theorem setdefault_lookup (x k : String) (v : Json)
    (d : List (String × Json)) :
    jLookup x (setdefault k v d) =
      (jLookup x d).or (if k = x then some v else none) := by
  unfold setdefault
  cases hk : jLookup k d with
  | some w =>
    by_cases hx : k = x
    · subst hx
      simp [hk]
    · rw [if_neg hx]
      simp
  | none =>
    rw [jLookup_append]
    rfl

/-- Lookup in the document `_apply_defaults` produces: the original
binding when present, otherwise the default table's binding. -/
theorem applyDefaults_lookup (name : String) (fields : List (String × Json))
    (x : String) :
    jLookup x (applyDefaults name fields) =
      (jLookup x fields).or (jLookup x (freshDefaults name)) := by
  unfold applyDefaults
  rw [setdefault_lookup, setdefault_lookup, setdefault_lookup,
    setdefault_lookup, setdefault_lookup, setdefault_lookup,
    setdefault_lookup, setdefault_lookup]
  rw [Option.or_assoc, Option.or_assoc, Option.or_assoc, Option.or_assoc,
    Option.or_assoc, Option.or_assoc, Option.or_assoc]
  congr 1
  simp only [freshDefaults, jLookup]
  split_ifs <;> simp

/-- C7: `_load_state` is a total function — no input raises.  An absent
file, a read error (`OSError` / `JSONDecodeError`) or a parsed non-object
all yield the fresh default-initialized document (bot name set, null
timestamps, zero counters, empty events and runs); a parsed object keeps
every binding it has and gains the default binding for every required key
it lacks. -/
theorem C7_load_state (name : String) :
    loadState name .absent = freshDefaults name ∧
      loadState name .readError = freshDefaults name ∧
      (∀ j : Json, j.isObj = false →
        loadState name (.parsed j) = freshDefaults name) ∧
      (∀ (fields : List (String × Json)) (k : String) (w : Json),
        jLookup k fields = some w →
        jLookup k (loadState name (.parsed (.obj fields))) = some w) ∧
      (∀ (fields : List (String × Json)) (k : String),
        jLookup k fields = none →
        jLookup k (loadState name (.parsed (.obj fields))) =
          jLookup k (freshDefaults name)) := by
  have habs : loadState name .absent = freshDefaults name := by
    simp only [loadState]
    rfl
  refine ⟨habs, habs, fun j hj => ?_, fun fields k w hk => ?_, fun fields k hk => ?_⟩
  · cases j with
    | obj fields => simp [Json.isObj] at hj
    | null => exact habs
    | bool b => exact habs
    | num q => exact habs
    | str s => exact habs
    | arr xs => exact habs
  · simp only [loadState]
    rw [applyDefaults_lookup, hk]
    rfl
  · simp only [loadState]
    rw [applyDefaults_lookup, hk]
    rfl

/-- Witness for C7: a file holding the JSON array `[]` (a readable but
non-object document) loads as the fresh default document, a partial
object keeps its `success_count` binding, and its missing `last_updated`
field is repaired with the default `null`. -/
theorem C7_load_state_witness :
    loadState "bot" (.parsed (.arr [])) = freshDefaults "bot" ∧
      jLookup "success_count"
          (loadState "bot" (.parsed (.obj [("success_count", .num 7)]))) =
        some (.num 7) ∧
      jLookup "last_updated"
          (loadState "bot" (.parsed (.obj [("success_count", .num 7)]))) =
        some .null := by
  have h := C7_load_state "bot"
  refine ⟨h.2.2.1 (.arr []) rfl, ?_, ?_⟩
  · exact h.2.2.2.1 [("success_count", .num 7)] "success_count" (.num 7) rfl
  · exact (h.2.2.2.2 [("success_count", .num 7)] "last_updated" rfl).trans rfl

/-- A document comes out of the parse step exactly for a file whose
content parsed as a JSON object. -/
theorem parsedDoc_eq_some (f : String × FileParse) (d : Json) :
    parsedDoc f = some d ↔
      ∃ fs, f.2 = .parsed (.obj fs) ∧ d = .obj fs := by
  obtain ⟨n, c⟩ := f
  cases c with
  | readError => simp [parsedDoc]
  | parsed j =>
    cases j with
    | obj fs =>
      simp only [parsedDoc]
      constructor
      · intro h
        exact ⟨fs, rfl, (Option.some.inj h).symm⟩
      · rintro ⟨fs', h1, h2⟩
        cases h1
        rw [h2]
    | null => simp [parsedDoc]
    | bool b => simp [parsedDoc]
    | num q => simp [parsedDoc]
    | str s => simp [parsedDoc]
    | arr xs => simp [parsedDoc]

/-- C8: `load_all_statuses` yields `[]` when the directory does not
exist; a document is in its output iff some file whose name matches the
`*_status.json` glob parsed to that JSON object (files that fail to
parse or are not objects are skipped without aborting the scan); and the
scan visits the matching files in filename-sorted order.  The concrete
conjunct is the scan-resilience scenario: one valid document file plus
one unreadable file yield exactly the valid document. -/
theorem C8_load_all :
    loadAllStatuses none = [] ∧
      (∀ (files : List (String × FileParse)) (d : Json),
        d ∈ loadAllStatuses (some files) ↔
          ∃ n fs, (n, FileParse.parsed (.obj fs)) ∈ files ∧
            matchesGlob n = true ∧ d = .obj fs) ∧
      (∀ files : List (String × FileParse),
        ((sortedFiles files).map (fun f => f.1.data)).Sorted (· ≤ ·) ∧
          loadAllStatuses (some files) =
            (sortedFiles files).filterMap parsedDoc) ∧
      loadAllStatuses
          (some [("b_status.json", .readError),
                 ("a_status.json", .parsed (.obj [("bot_name", .str "a")]))]) =
        [.obj [("bot_name", .str "a")]] := by
  refine ⟨rfl, fun files d => ?_, fun files => ⟨?_, rfl⟩, ?_⟩
  · simp only [loadAllStatuses, List.mem_filterMap]
    constructor
    · rintro ⟨f, hf, hp⟩
      rw [sortedFiles, List.mem_insertionSort] at hf
      rw [matchingFiles, List.mem_filter] at hf
      obtain ⟨fs, h2, h3⟩ := (parsedDoc_eq_some f d).mp hp
      refine ⟨f.1, fs, ?_, hf.2, h3⟩
      have hfe : f = (f.1, FileParse.parsed (.obj fs)) := by
        obtain ⟨n, c⟩ := f
        simp only at h2
        rw [h2]
      rw [← hfe]
      exact hf.1
    · rintro ⟨n, fs, hmem, hmatch, hd⟩
      refine ⟨(n, .parsed (.obj fs)), ?_, ?_⟩
      · rw [sortedFiles, List.mem_insertionSort, matchingFiles,
          List.mem_filter]
        exact ⟨hmem, hmatch⟩
      · rw [parsedDoc_eq_some]
        exact ⟨fs, rfl, hd⟩
  · have hs : (sortedFiles files).Sorted byName :=
      List.sorted_insertionSort byName (matchingFiles files)
    rw [List.Sorted, List.pairwise_map]
    exact hs
  · simp [loadAllStatuses, sortedFiles, matchingFiles, List.insertionSort,
      List.orderedInsert, byName, parsedDoc, matchesGlob]
    rw [if_neg (by decide)]
    rfl

/-- Witness for C8: a matching, object-valued file's document is in the
scan result. -/
theorem C8_load_all_witness :
    Json.obj [] ∈ loadAllStatuses (some [("x_status.json", .parsed (.obj []))]) :=
  (C8_load_all.2.1 [("x_status.json", .parsed (.obj []))] (.obj [])).mpr
    ⟨"x_status.json", [], by simp, by decide, rfl⟩

/-- A run of temp-file writes never touches the target path. -/
theorem applySteps_writes_target :
    ∀ (cs : List String) (fs : FsState),
      (applySteps fs (cs.map .writeTmp)).target = fs.target
  | [], fs => rfl
  | c :: cs, fs => by
    simp only [List.map_cons, applySteps, List.foldl_cons]
    exact applySteps_writes_target cs { fs with tmp := some c }

/-- C9: atomic visibility of `_save_state`.  For any serialized document
`w`, any sequence of partial temp-file writes, and any point `n` during
the save, a reader opening the target path sees either the old complete
content or the new complete content `w` — never a torn write; and once
the script has run to completion the target holds exactly `w`. -/
theorem C9_atomic_save (w : String) (chunks : List String) (fs₀ : FsState)
    (n : Nat) :
    (readTarget (applySteps fs₀ ((saveScript chunks w).take n)) = fs₀.target ∨
        readTarget (applySteps fs₀ ((saveScript chunks w).take n)) = some w) ∧
      readTarget (applySteps fs₀ (saveScript chunks w)) = some w := by
  constructor
  · by_cases hn : n ≤ chunks.length
    · left
      rw [saveScript, List.take_append_of_le_length (by simpa using hn),
        ← List.map_take]
      exact applySteps_writes_target (chunks.take n) fs₀
    · right
      rw [saveScript, List.take_of_length_le (by simp; omega)]
      rw [applySteps, List.foldl_append]
      rfl
  · rw [saveScript, applySteps, List.foldl_append]
    rfl

end StockBot
